import Mathlib

/-!
Shallow embedding of the preview pipeline of `blissful_tuner/latent_preview.py`
and the wildcard handling of `blissful_tuner/prompt_management.py`
(repository Sarania/musubi-tuner), together with proofs about the claims of
the specification.

Tensors are modelled as nested lists over a linear ordered field `α`
(instantiated at `ℚ` for executable witnesses and at `ℝ` where the source
computes a square root).  A 5-dimensional latent tensor in the layout
`{batch, channel, frame, height, width}` used by `decode_latent2rgb`
becomes a five-fold nested list.  Machine floats are modelled by exact
field arithmetic.
-/

/-- Five-dimensional tensor `{batch, channel, frame, height, width}` as nested lists. -/
abbrev Latent5 (α : Type) : Type := List (List (List (List (List α))))

/-- Four-dimensional tensor (for example `{frame, channel, height, width}`). -/
abbrev Tensor4 (α : Type) : Type := List (List (List (List α)))

/-- Elementwise map over a 4-dimensional nested list. -/
def map4 {α β : Type} (f : α → β) (l : Tensor4 α) : Tensor4 β :=
  l.map (List.map (List.map (List.map f)))

/-- Elementwise map over a 5-dimensional nested list. -/
def map5 {α β : Type} (f : α → β) (l : Latent5 α) : Latent5 β :=
  l.map (List.map (List.map (List.map (List.map f))))

/-- Elementwise zip of two 5-dimensional nested lists (tensor broadcasting of two
tensors of identical shape). -/
def zip5 {α β γ : Type} (f : α → β → γ) (a : Latent5 α) (b : Latent5 β) : Latent5 γ :=
  List.zipWith (List.zipWith (List.zipWith (List.zipWith (List.zipWith f)))) a b

/-- All elements of a 4-dimensional nested list, flattened. -/
def flat4 {α : Type} (l : Tensor4 α) : List α :=
  l.flatten.flatten.flatten

/-- All elements of a 5-dimensional nested list, flattened. -/
def flat5 {α : Type} (l : Latent5 α) : List α :=
  l.flatten.flatten.flatten.flatten

/-- Constant 5-dimensional tensor of shape `(b, c, t, h, w)`. -/
def const5 {α : Type} (b c t h w : ℕ) (v : α) : Latent5 α :=
  List.replicate b (List.replicate c (List.replicate t (List.replicate h (List.replicate w v))))

/-- Global minimum of a tensor given as the list of its elements, as computed by
`torch.Tensor.min` (meaningful for nonempty lists). -/
def listMin {α : Type} [LinearOrder α] [Zero α] (xs : List α) : α :=
  xs.foldr min (xs.headD 0)

/-- Global maximum of a tensor given as the list of its elements, as computed by
`torch.Tensor.max` (meaningful for nonempty lists). -/
def listMax {α : Type} [LinearOrder α] [Zero α] (xs : List α) : α :=
  xs.foldr max (xs.headD 0)

/-- Global mean of a tensor given as the list of its elements
(`torch.Tensor.mean`). -/
def listMean {α : Type} [LinearOrderedField α] (xs : List α) : α :=
  xs.sum / (xs.length : α)

/-- Unbiased sample variance with Bessel correction, the square of what
`torch.Tensor.std` computes (its default is `correction=1`). -/
def sampleVar {α : Type} [LinearOrderedField α] (xs : List α) : α :=
  (xs.map (fun x => (x - listMean xs) ^ 2)).sum / ((xs.length - 1 : ℕ) : α)

/-- Sample standard deviation over the reals (`torch.Tensor.std`). -/
noncomputable def sampleStd (xs : List ℝ) : ℝ :=
  Real.sqrt (sampleVar xs)

/-- Dot product of two lists (`torch` inner product along the channel axis);
trailing elements of the longer list are ignored. -/
def dotL {α : Type} [LinearOrderedField α] (xs ys : List α) : α :=
  (List.zipWith (fun a b => a * b) xs ys).sum

/-! ### Basic lemmas about the list helpers -/

theorem foldr_min_le {α : Type} [LinearOrder α] {x : α} (init : α) {xs : List α}
    (h : x ∈ xs) : xs.foldr min init ≤ x := by
  induction xs with
  | nil => cases h
  | cons a tl ih =>
    rcases List.mem_cons.1 h with rfl | hmem
    · exact min_le_left _ _
    · exact le_trans (min_le_right _ _) (ih hmem)

theorem le_foldr_max {α : Type} [LinearOrder α] {x : α} (init : α) {xs : List α}
    (h : x ∈ xs) : x ≤ xs.foldr max init := by
  induction xs with
  | nil => cases h
  | cons a tl ih =>
    rcases List.mem_cons.1 h with rfl | hmem
    · exact le_max_left _ _
    · exact le_trans (ih hmem) (le_max_right _ _)

theorem foldr_min_mem {α : Type} [LinearOrder α] (init : α) (xs : List α) :
    xs.foldr min init ∈ init :: xs := by
  induction xs with
  | nil => exact List.mem_singleton.2 rfl
  | cons a tl ih =>
    rcases min_choice a (tl.foldr min init) with h | h
    · simp only [List.foldr_cons, h]
      exact List.mem_cons_of_mem _ (List.mem_cons_self _ _)
    · simp only [List.foldr_cons, h]
      rcases List.mem_cons.1 ih with hh | hh
      · exact List.mem_cons.2 (Or.inl hh)
      · exact List.mem_cons_of_mem _ (List.mem_cons_of_mem _ hh)

theorem foldr_max_mem {α : Type} [LinearOrder α] (init : α) (xs : List α) :
    xs.foldr max init ∈ init :: xs := by
  induction xs with
  | nil => exact List.mem_singleton.2 rfl
  | cons a tl ih =>
    rcases max_choice a (tl.foldr max init) with h | h
    · simp only [List.foldr_cons, h]
      exact List.mem_cons_of_mem _ (List.mem_cons_self _ _)
    · simp only [List.foldr_cons, h]
      rcases List.mem_cons.1 ih with hh | hh
      · exact List.mem_cons.2 (Or.inl hh)
      · exact List.mem_cons_of_mem _ (List.mem_cons_of_mem _ hh)

theorem listMin_le {α : Type} [LinearOrder α] [Zero α] {x : α} {xs : List α}
    (h : x ∈ xs) : listMin xs ≤ x :=
  foldr_min_le _ h

theorem le_listMax {α : Type} [LinearOrder α] [Zero α] {x : α} {xs : List α}
    (h : x ∈ xs) : x ≤ listMax xs :=
  le_foldr_max _ h

theorem listMin_mem {α : Type} [LinearOrder α] [Zero α] {xs : List α}
    (h : xs ≠ []) : listMin xs ∈ xs := by
  cases xs with
  | nil => exact absurd rfl h
  | cons a tl =>
    have := foldr_min_mem (List.headD (a :: tl) 0) (a :: tl)
    simpa [listMin] using this

theorem listMax_mem {α : Type} [LinearOrder α] [Zero α] {xs : List α}
    (h : xs ≠ []) : listMax xs ∈ xs := by
  cases xs with
  | nil => exact absurd rfl h
  | cons a tl =>
    have := foldr_max_mem (List.headD (a :: tl) 0) (a :: tl)
    simpa [listMax] using this

theorem getD_replicate {α : Type} {n m : ℕ} {a d : α} (h : m < n) :
    (List.replicate n a).getD m d = a := by
  simp [List.getD, List.getElem?_replicate, h]

theorem flatten_replicate_replicate {γ : Type} (m n : ℕ) (v : γ) :
    (List.replicate m (List.replicate n v)).flatten = List.replicate (m * n) v := by
  induction m with
  | zero => simp
  | succ k ih =>
    rw [List.replicate_succ, List.flatten_cons, ih, ← List.replicate_add]
    congr 1
    ring

theorem map_range_const {γ : Type} (n : ℕ) (c : γ) (f : ℕ → γ)
    (h : ∀ i, i < n → f i = c) : (List.range n).map f = List.replicate n c := by
  have hmem : ∀ b ∈ (List.range n).map f, b = c := by
    intro b hb
    rcases List.mem_map.1 hb with ⟨i, hi, rfl⟩
    exact h i (List.mem_range.1 hi)
  have h3 := List.eq_replicate_of_mem hmem
  simpa using h3

theorem mem_flat4_iff {α : Type} {v : α} {l : Tensor4 α} :
    v ∈ flat4 l ↔ ∃ a ∈ l, ∃ b ∈ a, ∃ c ∈ b, v ∈ c := by
  simp [flat4, List.mem_flatten]
  tauto

theorem flat5_map5 {α β : Type} (f : α → β) (l : Latent5 α) :
    flat5 (map5 f l) = (flat5 l).map f := by
  simp [flat5, map5, List.map_flatten]

/-! ### Coefficient tables and the linear-projection decoder
(`LatentPreviewer.decode_latent2rgb`) -/

/-- RGB projection factors for the hunyuan model family, one row per latent
channel (source lines 128-145). -/
def hunyuanFactors : List (List ℚ) :=
  [[-(395/10000), -(331/10000),  445/10000],
   [  696/10000,   795/10000,   518/10000],
   [  135/10000, -(945/10000), -(282/10000)],
   [  108/10000, -(250/10000), -(765/10000)],
   [-(209/10000),    32/10000,   224/10000],
   [-(804/10000), -(254/10000), -(639/10000)],
   [-(991/10000),   271/10000, -(669/10000)],
   [-(646/10000), -(422/10000), -(400/10000)],
   [-(696/10000), -(595/10000), -(894/10000)],
   [-(799/10000), -(208/10000), -(375/10000)],
   [ 1166/10000,  1627/10000,   962/10000],
   [ 1165/10000,   432/10000,   407/10000],
   [-(2315/10000), -(1920/10000), -(1355/10000)],
   [-(270/10000),   401/10000, -(821/10000)],
   [-(616/10000), -(997/10000), -(727/10000)],
   [  249/10000, -(469/10000), -(1703/10000)]]

/-- RGB bias for the hunyuan model family (source line 146). -/
def hunyuanBias : List ℚ := [259/10000, -(192/10000), -(761/10000)]

/-- RGB projection factors for the wan model family (source lines 149-166). -/
def wanFactors : List (List ℚ) :=
  [[-(1299/10000), -(1692/10000),  2932/10000],
   [  671/10000,   406/10000,   442/10000],
   [ 3568/10000,  2548/10000,  1747/10000],
   [  372/10000,  2344/10000,  1420/10000],
   [  313/10000,   189/10000, -(328/10000)],
   [  296/10000, -(956/10000), -(665/10000)],
   [-(3477/10000), -(4059/10000), -(2925/10000)],
   [  166/10000,  1902/10000,  1975/10000],
   [-(412/10000),   267/10000, -(1364/10000)],
   [-(1293/10000),   740/10000,  1636/10000],
   [  680/10000,  3019/10000,  1128/10000],
   [   32/10000,   581/10000,   639/10000],
   [-(1251/10000),   927/10000,  1699/10000],
   [   60/10000, -(633/10000),     5/10000],
   [ 3477/10000,  2275/10000,  2950/10000],
   [ 1984/10000,   913/10000,  1861/10000]]

/-- RGB bias for the wan model family (source line 167). -/
def wanBias : List ℚ := [-(1835/10000), -(868/10000), -(3360/10000)]

/-- The static per-model-family coefficient table `model_params`
(source lines 126-169). -/
def modelParams : List (String × (List (List ℚ) × List ℚ)) :=
  [("hunyuan", (hunyuanFactors, hunyuanBias)), ("wan", (wanFactors, wanBias))]

/-- Column `j` of a factor matrix: `torch.nn.functional.linear` with the
transposed factor matrix multiplies the channel vector with column `j` of the
original matrix to produce output channel `j`. -/
def rgbColumn (factors : List (List ℚ)) (j : ℕ) : List ℚ :=
  factors.map (fun row => row.getD j 0)

/-- Cast of an exact table coefficient into the value field. -/
def qCast {α : Type} [LinearOrderedField α] (q : ℚ) : α :=
  Rat.cast q

/-- Affine map of one pixel: channel vector to `[r, g, b]`
(`torch.nn.functional.linear(extracted, latent_rgb_factors, bias)`,
source line 193). -/
def linearRGB {α : Type} [LinearOrderedField α] (factors : List (List ℚ)) (bias : List ℚ)
    (chans : List α) : List α :=
  (List.range bias.length).map
    (fun j => dotL chans ((rgbColumn factors j).map qCast) + qCast (bias.getD j 0))

/-- Channel vector of batch element 0 at frame `t`, row `y`, column `x`
(`latents[:, :, t, :, :][0].permute(1, 2, 0)` reads, for a fixed spatial
position, all channels of batch element 0; source line 192). -/
def latentChans {α : Type} [Zero α] (b0 : Tensor4 α) (t y x : ℕ) : List α :=
  b0.map (fun ch => ((ch.getD t []).getD y []).getD x 0)

/-- Number of frames of the latent tensor (`latents.shape[2]`). -/
def numFrames {α : Type} (b0 : Tensor4 α) : ℕ := (b0.getD 0 []).length

/-- Latent spatial height (`latents.shape[3]`). -/
def frameH {α : Type} (b0 : Tensor4 α) : ℕ := ((b0.getD 0 []).getD 0 []).length

/-- Latent spatial width (`latents.shape[4]`). -/
def frameW {α : Type} (b0 : Tensor4 α) : ℕ := (((b0.getD 0 []).getD 0 []).getD 0 []).length

/-- RGB image of frame `t` in layout `{height, width, 3}` (the loop body of
source lines 191-194). -/
def frameRGB {α : Type} [LinearOrderedField α] (factors : List (List ℚ)) (bias : List ℚ)
    (b0 : Tensor4 α) (t : ℕ) : List (List (List α)) :=
  (List.range (frameH b0)).map
    (fun y => (List.range (frameW b0)).map
      (fun x => linearRGB factors bias (latentChans b0 t y x)))

/-- All frames stacked in layout `{frame, height, width, 3}`
(`torch.stack(latent_images, dim=0)`, source line 197). -/
def stackedImages {α : Type} [LinearOrderedField α] (factors : List (List ℚ)) (bias : List ℚ)
    (b0 : Tensor4 α) : Tensor4 α :=
  (List.range (numFrames b0)).map (frameRGB factors bias b0)

/-- Min-max rescale of one value (source line 203). -/
def rescale01 {α : Type} [LinearOrderedField α] (mn mx v : α) : α :=
  (v - mn) / (mx - mn)

/-- Permutation from `{frame, height, width, c}` to `{frame, c, height, width}`
(`latent_images.permute(0, 3, 1, 2)`, source line 206; `c` is the size of the
last axis, always 3 here). -/
def permuteLast {α : Type} [Zero α] (c : ℕ) (imgs : Tensor4 α) : Tensor4 α :=
  imgs.map (fun frame =>
    (List.range c).map (fun j => frame.map (fun row => row.map (fun px => px.getD j 0))))

/-- The linear-projection decoder `LatentPreviewer.decode_latent2rgb`
(source lines 122-207): table lookup, per-frame affine map via the coefficient
table, stacking, global min-max rescale to `[0, 1]` when the tensor is not
constant, and final permutation to `{frame, 3, height, width}`.  An unsupported
model family raises `ValueError`, modelled as `Except.error`. -/
def decode_latent2rgb {α : Type} [LinearOrderedField α] (model_type : String)
    (latents : Latent5 α) : Except String (Tensor4 α) :=
  match modelParams.lookup model_type with
  | none => .error ("Unsupported model type: " ++ model_type)
  | some (factors, bias) =>
    let b0 := latents.getD 0 []
    let imgs := stackedImages factors bias b0
    let mn := listMin (flat4 imgs)
    let mx := listMax (flat4 imgs)
    let rescaled := if mn < mx then map4 (rescale01 mn mx) imgs else imgs
    .ok (permuteLast bias.length rescaled)

/-! ### Membership lemmas for the decoder -/

theorem getD_mem_or_default {α : Type} {l : List α} {j : ℕ} {d : α} :
    l.getD j d ∈ l ∨ l.getD j d = d := by
  by_cases h : j < l.length
  · left
    rw [List.getD_eq_getElem l d h]
    exact List.getElem_mem h
  · right
    simp [List.getD, List.getElem?_eq_none (by omega : l.length ≤ j)]

theorem mem_flat4_permuteLast {α : Type} [Zero α] {c : ℕ} {imgs : Tensor4 α} {v : α}
    (hv : v ∈ flat4 (permuteLast c imgs)) : v = 0 ∨ v ∈ flat4 imgs := by
  rcases mem_flat4_iff.1 hv with ⟨a, ha, b, hb, r, hr, hvr⟩
  rcases List.mem_map.1 ha with ⟨frame, hframe, rfl⟩
  rcases List.mem_map.1 hb with ⟨j, _, rfl⟩
  rcases List.mem_map.1 hr with ⟨row, hrow, rfl⟩
  rcases List.mem_map.1 hvr with ⟨px, hpx, rfl⟩
  rcases getD_mem_or_default (l := px) (j := j) (d := (0 : α)) with hmem | hdef
  · exact Or.inr (mem_flat4_iff.2 ⟨frame, hframe, row, hrow, px, hpx, hmem⟩)
  · exact Or.inl hdef

theorem mem_flat4_map4 {α β : Type} {f : α → β} {imgs : Tensor4 α} {v : β}
    (hv : v ∈ flat4 (map4 f imgs)) : ∃ u ∈ flat4 imgs, v = f u := by
  rcases mem_flat4_iff.1 hv with ⟨a, ha, b, hb, r, hr, hvr⟩
  rcases List.mem_map.1 ha with ⟨fr, hfr, rfl⟩
  rcases List.mem_map.1 hb with ⟨row, hrow, rfl⟩
  rcases List.mem_map.1 hr with ⟨px, hpx, rfl⟩
  rcases List.mem_map.1 hvr with ⟨u, hu, rfl⟩
  exact ⟨u, mem_flat4_iff.2 ⟨fr, hfr, row, hrow, px, hpx, hu⟩, rfl⟩

/-- C2: for every model family that has a coefficient-table entry and every
input latent, `decode_latent2rgb` succeeds; if the global maximum of the
stacked frame tensor exceeds the global minimum, every value of the returned
tensor lies in `[0, 1]`; otherwise the stacked tensor is returned unchanged
(only permuted to `{frame, 3, height, width}`, without rescaling). -/
theorem decode_latent2rgb_minmax_bounds {α : Type} [LinearOrderedField α]
    (model_type : String) (factors : List (List ℚ)) (bias : List ℚ) (latents : Latent5 α)
    (h : modelParams.lookup model_type = some (factors, bias)) :
    ∃ out, decode_latent2rgb model_type latents = Except.ok out ∧
      (listMin (flat4 (stackedImages factors bias (latents.getD 0 []))) <
          listMax (flat4 (stackedImages factors bias (latents.getD 0 []))) →
        ∀ v ∈ flat4 out, 0 ≤ v ∧ v ≤ 1) ∧
      (¬ listMin (flat4 (stackedImages factors bias (latents.getD 0 []))) <
          listMax (flat4 (stackedImages factors bias (latents.getD 0 []))) →
        out = permuteLast bias.length (stackedImages factors bias (latents.getD 0 []))) := by
  set imgs := stackedImages factors bias (latents.getD 0 []) with himgs
  set mn := listMin (flat4 imgs) with hmn
  set mx := listMax (flat4 imgs) with hmx
  have hdef : decode_latent2rgb model_type latents =
      Except.ok (permuteLast bias.length
        (if mn < mx then map4 (rescale01 mn mx) imgs else imgs)) := by
    unfold decode_latent2rgb
    rw [h]
  refine ⟨_, hdef, ?_, ?_⟩
  · intro hlt v hv
    rw [if_pos hlt] at hv
    rcases mem_flat4_permuteLast hv with rfl | hv2
    · exact ⟨le_refl 0, zero_le_one⟩
    · rcases mem_flat4_map4 hv2 with ⟨u, hu, rfl⟩
      have hmnle := listMin_le hu
      have hmxle := le_listMax hu
      have hpos : (0 : α) < mx - mn := sub_pos.2 hlt
      constructor
      · exact div_nonneg (sub_nonneg.2 hmnle) (le_of_lt hpos)
      · rw [rescale01, div_le_one hpos]
        exact sub_le_sub_right hmxle _
  · intro hnlt
    rw [if_neg hnlt]

/-- C2 witness: instantiation of the min-max bound theorem at the hunyuan
coefficient table over `ℚ` with a concrete two-channel one-pixel latent. -/
theorem decode_latent2rgb_minmax_bounds_witness :
    modelParams.lookup "hunyuan" = some (hunyuanFactors, hunyuanBias) ∧
    (∃ out, decode_latent2rgb "hunyuan" ([[[[[3]]], [[[5]]]]] : Latent5 ℚ) = Except.ok out ∧
      (listMin (flat4 (stackedImages hunyuanFactors hunyuanBias
            (([[[[[3]]], [[[5]]]]] : Latent5 ℚ).getD 0 []))) <
          listMax (flat4 (stackedImages hunyuanFactors hunyuanBias
            (([[[[[3]]], [[[5]]]]] : Latent5 ℚ).getD 0 []))) →
        ∀ v ∈ flat4 out, 0 ≤ v ∧ v ≤ 1) ∧
      (¬ listMin (flat4 (stackedImages hunyuanFactors hunyuanBias
            (([[[[[3]]], [[[5]]]]] : Latent5 ℚ).getD 0 []))) <
          listMax (flat4 (stackedImages hunyuanFactors hunyuanBias
            (([[[[[3]]], [[[5]]]]] : Latent5 ℚ).getD 0 []))) →
        out = permuteLast hunyuanBias.length (stackedImages hunyuanFactors hunyuanBias
          (([[[[[3]]], [[[5]]]]] : Latent5 ℚ).getD 0 [])))) :=
  ⟨rfl, decode_latent2rgb_minmax_bounds "hunyuan" hunyuanFactors hunyuanBias
    ([[[[[3]]], [[[5]]]]] : Latent5 ℚ) rfl⟩

/-- C10: the linear-projection decoder reads its input only through batch
element 0: two latent tensors that agree at batch index 0 decode identically
(every other batch element is ignored). -/
theorem decode_latent2rgb_batch0_only {α : Type} [LinearOrderedField α]
    (model_type : String) (l1 l2 : Latent5 α)
    (h : l1.getD 0 [] = l2.getD 0 []) :
    decode_latent2rgb model_type l1 = decode_latent2rgb model_type l2 := by
  unfold decode_latent2rgb
  rw [h]

/-- C10 witness: two concrete two-batch latents over `ℚ` that differ at batch
index 1 but agree at batch index 0 decode to the same output. -/
theorem decode_latent2rgb_batch0_only_witness :
    (([[[[[3]]]], [[[[7]]]]] : Latent5 ℚ).getD 0 [] =
      ([[[[[3]]]], [[[[9]]]]] : Latent5 ℚ).getD 0 []) ∧
    decode_latent2rgb "hunyuan" ([[[[[3]]]], [[[[7]]]]] : Latent5 ℚ) =
      decode_latent2rgb "hunyuan" ([[[[[3]]]], [[[[9]]]]] : Latent5 ℚ) :=
  ⟨rfl, decode_latent2rgb_batch0_only "hunyuan" _ _ rfl⟩

/-! ### Timestep schedule (`LatentPreviewer.__init__`, source line 26) -/

/-- The stored schedule `self.timesteps_percent = timesteps / 1000`: every raw
timestep divided by the constant 1000 (source line 26). -/
def timesteps_percent {α : Type} [LinearOrderedField α] (timesteps : List α) : List α :=
  timesteps.map (fun t => t / 1000)

/-- Schedule construction following the words of the specification (each value
divided by the sequence maximum); stated only for comparison with the source
definition `timesteps_percent`. -/
def timestepsPercentSpec {α : Type} [LinearOrderedField α] (timesteps : List α) : List α :=
  timesteps.map (fun t => t / listMax timesteps)

/-- C7 counterexample: the stored schedule is not the raw sequence divided by
its maximum (raw sequence `[500]` stores `[1/2]`, not `[1]`), and for raw
values above 1000 the stored fraction leaves `[0, 1]` (raw `[2000]` stores
`[2]`). -/
theorem timesteps_percent_counterexample :
    timesteps_percent [(500 : ℚ)] ≠ timestepsPercentSpec [(500 : ℚ)] ∧
    ¬ (∀ u ∈ timesteps_percent [(2000 : ℚ)], 0 ≤ u ∧ u ≤ 1) := by
  constructor
  · simp only [timesteps_percent, timestepsPercentSpec, listMax, List.map_cons, List.map_nil,
      List.foldr_cons, List.foldr_nil, List.headD_cons, max_self, ne_eq, List.cons.injEq]
    norm_num
  · intro hall
    have := (hall 2 (by norm_num [timesteps_percent])).2
    norm_num at this

/-- C7 amended: the stored schedule divides every raw timestep by the constant
1000, and every stored noise fraction lies in `[0, 1]` provided every raw
timestep lies in `[0, 1000]`. -/
theorem timesteps_percent_div1000 {α : Type} [LinearOrderedField α] (timesteps : List α)
    (h : ∀ t ∈ timesteps, 0 ≤ t ∧ t ≤ 1000) :
    timesteps_percent timesteps = timesteps.map (fun t => t / 1000) ∧
    ∀ u ∈ timesteps_percent timesteps, 0 ≤ u ∧ u ≤ 1 := by
  refine ⟨rfl, ?_⟩
  intro u hu
  rcases List.mem_map.1 hu with ⟨t, ht, rfl⟩
  rcases h t ht with ⟨h0, h1⟩
  constructor
  · exact div_nonneg h0 (by norm_num)
  · rw [div_le_one (by norm_num : (0 : α) < 1000)]
    exact h1

/-- C7 witness: the amended schedule theorem applied to the concrete raw
sequence `[0, 500, 1000]` over `ℚ`. -/
theorem timesteps_percent_div1000_witness :
    (∀ t ∈ [(0 : ℚ), 500, 1000], 0 ≤ t ∧ t ≤ 1000) ∧
    (timesteps_percent [(0 : ℚ), 500, 1000] = [(0 : ℚ), 500, 1000].map (fun t => t / 1000) ∧
      ∀ u ∈ timesteps_percent [(0 : ℚ), 500, 1000], 0 ≤ u ∧ u ≤ 1) :=
  ⟨by norm_num, timesteps_percent_div1000 [(0 : ℚ), 500, 1000] (by norm_num)⟩

/-! ### Compute precision coercion (`LatentPreviewer.__init__`, source line 28) -/

/-- The floating-point dtypes of `torch` relevant to the previewer, including
both 8-bit float variants `torch` provides. -/
inductive TorchDType
  | float8_e4m3fn
  | float8_e5m2
  | float16
  | bfloat16
  | float32
  | float64
deriving DecidableEq

/-- Whether a dtype is an 8-bit floating-point type. -/
def TorchDType.is8BitFloat : TorchDType → Bool
  | .float8_e4m3fn => true
  | .float8_e5m2 => true
  | _ => false

/-- The precision coercion of the previewer constructor:
`self.dtype = dtype if dtype != torch.float8_e4m3fn else torch.float16`
(source line 28). -/
def coerce_dtype (dtype : TorchDType) : TorchDType :=
  if dtype = TorchDType.float8_e4m3fn then TorchDType.float16 else dtype

/-- C8 counterexample: `torch.float8_e5m2` is an 8-bit floating-point type but
is not coerced to half precision by the constructor. -/
theorem coerce_dtype_counterexample :
    TorchDType.is8BitFloat TorchDType.float8_e5m2 = true ∧
    coerce_dtype TorchDType.float8_e5m2 ≠ TorchDType.float16 := by
  decide

/-- C8 amended: exactly the dtype `float8_e4m3fn` is coerced to half
precision; every other requested precision (including the 8-bit float
`float8_e5m2`) is kept unchanged. -/
theorem coerce_dtype_spec :
    coerce_dtype TorchDType.float8_e4m3fn = TorchDType.float16 ∧
    ∀ d : TorchDType, d ≠ TorchDType.float8_e4m3fn → coerce_dtype d = d := by
  refine ⟨rfl, ?_⟩
  intro d hd
  rcases d <;> first | rfl | exact absurd rfl hd

/-- C8 witness: the amended coercion theorem applied to `bfloat16`. -/
theorem coerce_dtype_spec_witness :
    (TorchDType.bfloat16 ≠ TorchDType.float8_e4m3fn) ∧
    coerce_dtype TorchDType.bfloat16 = TorchDType.bfloat16 :=
  ⟨by decide, coerce_dtype_spec.2 TorchDType.bfloat16 (by decide)⟩

/-! ### Frame sink (`LatentPreviewer.write_video`, source lines 75-109) -/

/-- Python `str.replace` for a nonempty pattern: replace all non-overlapping
occurrences left to right.  Recursion is on a fuel argument that starts at the
length of the subject list (the pattern is consumed or one character is kept at
each step, so this fuel always suffices).  The source only calls this with the
patterns `".mp4"` and `".png"`. -/
def replaceFuel (pat rep : List Char) : ℕ → List Char → List Char
  | 0, s => s
  | fuel + 1, s =>
    match s with
    | [] => []
    | c :: rest =>
      if pat.isPrefixOf s ∧ pat ≠ [] then rep ++ replaceFuel pat rep fuel (s.drop pat.length)
      else c :: replaceFuel pat rep fuel rest

/-- Python `target.replace(pat, rep)` on strings (for nonempty `pat`). -/
def pyReplace (s pat rep : String) : String :=
  ⟨replaceFuel pat.data rep.data s.data.length s.data⟩

/-- One clamped, scaled, truncated 8-bit value:
`frame.clamp(0, 1).mul(255).byte()` applied to a single element (source
lines 80 and 99; `byte()` truncates toward zero, which is the floor on the
clamped nonnegative range). -/
def byteClamp {α : Type} [LinearOrderedField α] [FloorRing α] (v : α) : ℕ :=
  (⌊min (max v 0) 1 * 255⌋).toNat

/-- One frame prepared for serialization: clamp to `[0,1]`, scale to 8 bits and
permute from `{3, H, W}` to `{H, W, 3}` (source lines 80-82 and 99-101). -/
def processFrame {α : Type} [LinearOrderedField α] [FloorRing α]
    (frame : List (List (List α))) : List (List (List ℕ)) :=
  (List.range (frame.getD 0 []).length).map
    (fun y => (List.range ((frame.getD 0 []).getD 0 []).length).map
      (fun x => (List.range frame.length).map
        (fun ch => byteClamp (((frame.getD ch []).getD y []).getD x 0))))

/-- The file-system effect of one `write_video` call: either exactly one still
image or exactly one video container with its frame rate, dimensions and
encoded frames. -/
inductive WriteOutput
  | image (path : String) (frame : List (List (List ℕ)))
  | video (path : String) (fps : ℕ) (width height : ℕ) (frames : List (List (List (List ℕ))))
deriving DecidableEq

/-- The frame sink `LatentPreviewer.write_video` (source lines 75-109): one
frame is written as a still image at the target path with `".mp4"` replaced by
`".png"`; otherwise a video container is opened at the target path with
`".png"` replaced by `".mp4"` and every frame is encoded into it at the
configured frame rate. -/
def write_video {α : Type} [LinearOrderedField α] [FloorRing α] (fps : ℕ)
    (frames : Tensor4 α) (width height : ℕ) (target : String) : WriteOutput :=
  if frames.length = 1 then
    WriteOutput.image (pyReplace target ".mp4" ".png") (processFrame (frames.getD 0 []))
  else
    WriteOutput.video (pyReplace target ".png" ".mp4") fps width height
      (frames.map processFrame)

/-- C3: with exactly one frame the sink writes only a still image (no video
container value exists) at the target path with the video extension replaced
by the image extension; with more than one frame the sink writes exactly one
video at the configured frame rate containing as many encoded frames as were
passed, at the target path with the image extension replaced by the video
extension. -/
theorem write_video_branches {α : Type} [LinearOrderedField α] [FloorRing α]
    (fps width height : ℕ) (frames : Tensor4 α) (target : String) :
    (frames.length = 1 →
      write_video fps frames width height target =
        WriteOutput.image (pyReplace target ".mp4" ".png")
          (processFrame (frames.getD 0 []))) ∧
    (1 < frames.length →
      write_video fps frames width height target =
        WriteOutput.video (pyReplace target ".png" ".mp4") fps width height
          (frames.map processFrame) ∧
      (frames.map processFrame).length = frames.length) := by
  constructor
  · intro h1
    rw [write_video, if_pos h1]
  · intro hgt
    refine ⟨?_, List.length_map _ _⟩
    rw [write_video, if_neg (by omega)]

/-- C3 witness: the two branches at concrete inputs over `ℚ`; a singleton
frame list written to `"./latent_preview.mp4"` produces the image
`"./latent_preview.png"`, and a two-frame list written to
`"./latent_preview.png"` produces the video `"./latent_preview.mp4"` with two
encoded frames. -/
theorem write_video_branches_witness :
    ((([[[[(1 : ℚ)]]]] : Tensor4 ℚ).length = 1) ∧
      write_video 24 ([[[[(1 : ℚ)]]]] : Tensor4 ℚ) 8 8 "./latent_preview.mp4" =
        WriteOutput.image (pyReplace "./latent_preview.mp4" ".mp4" ".png")
          (processFrame (([[[[(1 : ℚ)]]]] : Tensor4 ℚ).getD 0 []))) ∧
    pyReplace "./latent_preview.mp4" ".mp4" ".png" = "./latent_preview.png" ∧
    pyReplace "./latent_preview.png" ".png" ".mp4" = "./latent_preview.mp4" ∧
    ((1 < ([[[[(0 : ℚ)]]], [[[2]]]] : Tensor4 ℚ).length) ∧
      (write_video 24 ([[[[(0 : ℚ)]]], [[[2]]]] : Tensor4 ℚ) 8 8 "./latent_preview.png" =
        WriteOutput.video (pyReplace "./latent_preview.png" ".png" ".mp4") 24 8 8
          (([[[[(0 : ℚ)]]], [[[2]]]] : Tensor4 ℚ).map processFrame) ∧
      (([[[[(0 : ℚ)]]], [[[2]]]] : Tensor4 ℚ).map processFrame).length =
        ([[[[(0 : ℚ)]]], [[[2]]]] : Tensor4 ℚ).length)) :=
  ⟨⟨rfl, (write_video_branches 24 8 8 ([[[[(1 : ℚ)]]]] : Tensor4 ℚ) "./latent_preview.mp4").1 rfl⟩,
    by decide, by decide,
    ⟨by decide, (write_video_branches 24 8 8 ([[[[(0 : ℚ)]]], [[[2]]]] : Tensor4 ℚ)
      "./latent_preview.png").2 (by decide)⟩⟩

/-! ### Streaming container state machine (`write_video`, source lines 88-109) -/

/-- State of the streaming video container. -/
inductive ContainerState
  | opened
  | closed
deriving DecidableEq

/-- The encode/mux loop of `write_video` with an explicit fallible encoder
(source lines 97-109): every packet the encoder emits is muxed immediately;
after the last frame the encoder is flushed and the container closed.  The
source installs no exception handler, so an encoder error propagates and
`container.close()` on source line 109 is never reached, leaving the container
in the `opened` state. -/
def muxLoop {F P : Type} (encode : ℕ → F → Except String (List P)) (flush : List P) :
    ℕ → List P → List F → ContainerState × List P × Option String
  | _, muxed, [] => (ContainerState.closed, muxed ++ flush, none)
  | i, muxed, f :: rest =>
    match encode i f with
    | .error e => (ContainerState.opened, muxed, some e)
    | .ok pkts => muxLoop encode flush (i + 1) (muxed ++ pkts) rest

/-- The multi-frame branch of `write_video` as a resource trace: open the
container, run the encode/mux loop, and report the final container state, the
muxed packets and the propagated error, if any. -/
def write_video_stream {F P : Type} (encode : ℕ → F → Except String (List P))
    (flush : List P) (frames : List F) : ContainerState × List P × Option String :=
  muxLoop encode flush 0 [] frames

/-- C5 evaluation: when the encoder raises on the second of three frames, the
write loop propagates the error and the container never reaches the closed
state, so the container is not closed on every exit path. -/
theorem write_video_stream_error_leaves_open :
    (write_video_stream
        (fun i (_ : ℕ) => if i = 1 then Except.error "encode error"
          else Except.ok ([] : List Unit))
        [] [10, 20, 30]).1 = ContainerState.opened ∧
    (write_video_stream
        (fun i (_ : ℕ) => if i = 1 then Except.error "encode error"
          else Except.ok ([] : List Unit))
        [] [10, 20, 30]).2.2 = some "encode error" ∧
    ContainerState.opened ≠ ContainerState.closed := by
  decide

/-! ### Wildcard file resolution (`wildcard_replace`,
`blissful_tuner/prompt_management.py` lines 45-99)

POSIX paths are modelled as component lists with an absolute flag;
`os.path.normpath` / `os.path.abspath` collapse `"."`, empty and `".."`
components.  The file system is a list of existing absolute files given as
component lists. -/

/-- A path as `os.path` sees it: absolute flag plus components (the result of
splitting on the separator). -/
structure PyPath where
  absolute : Bool
  comps : List String
deriving DecidableEq

/-- One step of `os.path.normpath` on an absolute path: skip empty and `"."`
components, pop on `".."` (at the root `".."` is dropped). -/
def normStep (acc : List String) (c : String) : List String :=
  if c = "" ∨ c = "." then acc
  else if c = ".." then acc.dropLast
  else acc ++ [c]

/-- `os.path.normpath` on the components of an absolute path. -/
def normAbsComps (cs : List String) : List String :=
  cs.foldl normStep []

/-- `os.path.abspath`: join with the (absolute) working directory when the
path is relative, then normalize. -/
def abspathComps (cwd : List String) (p : PyPath) : List String :=
  normAbsComps (if p.absolute then p.comps else cwd ++ p.comps)

/-- Append the literal `".txt"` to the final component, as the f-string
interpolation in `os.path.join(base_dir, f"{wildcard}.txt")` does
(source line 62). -/
def appendTxt (p : PyPath) : PyPath :=
  ⟨p.absolute, p.comps.dropLast ++ [p.comps.getLastD "" ++ ".txt"]⟩

/-- Errors raised by `wildcard_replace` before any file is read. -/
inductive WildcardError
  | valueError (msg : String)
  | fileNotFound (msg : String)
deriving DecidableEq

/-- The path-selection and file-opening part of `wildcard_replace` (source
lines 54-74): reject absolute wildcards, reject `".."` components, resolve
`{wildcard}.txt` inside the wildcard location, reject candidates that escape
the base directory (the code compares against `base_dir` and
`base_dir + os.sep`, which on normalized component lists is equality or
component-prefix with a nonempty base), and finally open the candidate file if
it exists.  The value returned is the single path the function opens; the
subsequent parsing of lines and the weighted random choice read no other
file. -/
def wildcard_replace_open (cwd : List String) (fileSystem : List (List String))
    (wildcard : PyPath) (wildcard_location : PyPath) :
    Except WildcardError (List String) :=
  if wildcard.absolute then
    .error (.valueError "Absolute paths not allowed in wildcard")
  else if ".." ∈ wildcard.comps then
    .error (.valueError "Parent-directory traversal not allowed in wildcard")
  else
    let base_dir := abspathComps cwd wildcard_location
    let candidate := normAbsComps (base_dir ++ (appendTxt wildcard).comps)
    if candidate = base_dir ∨ (base_dir ≠ [] ∧ base_dir.isPrefixOf candidate) then
      if candidate ∈ fileSystem then .ok candidate
      else .error (.fileNotFound "Wildcard file not found")
    else .error (.valueError "Wildcard path escapes base directory")

/-- C9: whenever `wildcard_replace` reaches a file read (instead of raising),
the file it opens is exactly the resolved `{wildcard}.txt` under the wildcard
location, that path exists on the file system, and its resolved absolute path
lies inside the base directory (the base directory is a component-prefix of
it); no file outside the configured wildcard location is ever opened. -/
theorem wildcard_replace_open_inside (cwd : List String) (fileSystem : List (List String))
    (wildcard : PyPath) (wildcard_location : PyPath) (p : List String)
    (h : wildcard_replace_open cwd fileSystem wildcard wildcard_location = Except.ok p) :
    p ∈ fileSystem ∧
    (abspathComps cwd wildcard_location) <+: p ∧
    p = normAbsComps (abspathComps cwd wildcard_location ++ (appendTxt wildcard).comps) := by
  rw [wildcard_replace_open] at h
  by_cases h1 : wildcard.absolute
  · rw [if_pos h1] at h
    cases h
  rw [if_neg h1] at h
  by_cases h2 : ".." ∈ wildcard.comps
  · rw [if_pos h2] at h
    cases h
  rw [if_neg h2] at h
  simp only at h
  by_cases h3 : normAbsComps (abspathComps cwd wildcard_location ++ (appendTxt wildcard).comps) =
      abspathComps cwd wildcard_location ∨
      (abspathComps cwd wildcard_location ≠ [] ∧
        (abspathComps cwd wildcard_location).isPrefixOf
          (normAbsComps (abspathComps cwd wildcard_location ++ (appendTxt wildcard).comps)))
  · rw [if_pos h3] at h
    by_cases h4 : normAbsComps (abspathComps cwd wildcard_location ++ (appendTxt wildcard).comps) ∈
        fileSystem
    · rw [if_pos h4] at h
      cases h
      refine ⟨h4, ?_, rfl⟩
      rcases h3 with heq | ⟨_, hpre⟩
      · rw [heq]
      · exact List.isPrefixOf_iff_prefix.1 hpre
    · rw [if_neg h4] at h
      cases h
  · rw [if_neg h3] at h
    cases h

/-- C9 witness: a concrete resolution where the wildcard `colors` inside the
base `/data/wild` opens exactly `/data/wild/colors.txt`. -/
theorem wildcard_replace_open_inside_witness :
    (wildcard_replace_open ["home"] [["data", "wild", "colors.txt"]]
        ⟨false, ["colors"]⟩ ⟨true, ["data", "wild"]⟩ =
      Except.ok ["data", "wild", "colors.txt"]) ∧
    (["data", "wild", "colors.txt"] ∈ [[("data" : String), "wild", "colors.txt"]] ∧
      (abspathComps ["home"] ⟨true, ["data", "wild"]⟩) <+: ["data", "wild", "colors.txt"] ∧
      ["data", "wild", "colors.txt"] =
        normAbsComps (abspathComps ["home"] ⟨true, ["data", "wild"]⟩ ++
          (appendTxt ⟨false, ["colors"]⟩).comps)) :=
  ⟨rfl, wildcard_replace_open_inside ["home"] [["data", "wild", "colors.txt"]]
    ⟨false, ["colors"]⟩ ⟨true, ["data", "wild"]⟩ ["data", "wild", "colors.txt"] rfl⟩

/-! ### Noise normalizer
(`LatentPreviewer.subtract_original_and_normalize`, source lines 64-73) -/

/-- The residual `noisy_latents - original_latents * noise_remaining` with
`noise_remaining = timesteps_percent[current_step]` (source lines 66-69);
`tsp` is the stored schedule `timesteps_percent`. -/
def residualLatents (original : Latent5 ℝ) (tsp : List ℝ) (noisy : Latent5 ℝ)
    (step : ℕ) : Latent5 ℝ :=
  zip5 (fun x o => x - o * tsp.getD step 0) noisy original

/-- The noise normalizer `subtract_original_and_normalize` (source lines
64-73): subtract the remaining portion of the original latents, then divide
the mean-centered residual by its sample standard deviation plus `1e-5`. -/
noncomputable def subtract_original_and_normalize (original : Latent5 ℝ) (tsp : List ℝ)
    (noisy : Latent5 ℝ) (step : ℕ) : Latent5 ℝ :=
  map5 (fun x =>
      (x - listMean (flat5 (residualLatents original tsp noisy step))) /
        (sampleStd (flat5 (residualLatents original tsp noisy step)) + 1 / 100000))
    (residualLatents original tsp noisy step)

theorem sum_map_affine {α : Type} [LinearOrderedField α] (a b : α) (xs : List α) :
    (xs.map (fun x => a * x + b)).sum = a * xs.sum + (xs.length : α) * b := by
  induction xs with
  | nil => simp
  | cons c tl ih =>
    simp only [List.map_cons, List.sum_cons, List.length_cons, ih]
    push_cast
    ring

theorem listMean_map_affine {α : Type} [LinearOrderedField α] (a b : α) (xs : List α)
    (h : xs ≠ []) : listMean (xs.map (fun x => a * x + b)) = a * listMean xs + b := by
  have hlen : (xs.length : α) ≠ 0 :=
    Nat.cast_ne_zero.2 (fun h0 => h (List.length_eq_zero.1 h0))
  rw [listMean, List.length_map, sum_map_affine, add_div, mul_div_assoc,
    mul_div_cancel_left₀ _ hlen, listMean]

theorem sampleVar_map_affine {α : Type} [LinearOrderedField α] (a b : α) (xs : List α) :
    sampleVar (xs.map (fun x => a * x + b)) = a ^ 2 * sampleVar xs := by
  cases xs with
  | nil => simp [sampleVar]
  | cons c tl =>
    have hne : (c :: tl) ≠ [] := by simp
    rw [sampleVar, sampleVar, List.length_map, listMean_map_affine a b _ hne, List.map_map]
    have hfun : ((fun y => (y - (a * listMean (c :: tl) + b)) ^ 2) ∘ (fun x => a * x + b)) =
        fun x => a ^ 2 * (x - listMean (c :: tl)) ^ 2 := by
      funext x
      simp only [Function.comp]
      ring
    rw [hfun, List.sum_map_mul_left, mul_div_assoc]

theorem sampleVar_nonneg (xs : List ℝ) : 0 ≤ sampleVar xs := by
  apply div_nonneg
  · apply List.sum_nonneg
    intro x hx
    rcases List.mem_map.1 hx with ⟨u, _, rfl⟩
    exact sq_nonneg _
  · exact Nat.cast_nonneg _

theorem sampleStd_nonneg (xs : List ℝ) : 0 ≤ sampleStd xs :=
  Real.sqrt_nonneg _

theorem sampleStd_map_affine (a b : ℝ) (xs : List ℝ) :
    sampleStd (xs.map (fun x => a * x + b)) = |a| * sampleStd xs := by
  rw [sampleStd, sampleStd, sampleVar_map_affine, Real.sqrt_mul (sq_nonneg a),
    Real.sqrt_sq_eq_abs]

theorem sub_norm_flat_eq (original : Latent5 ℝ) (tsp : List ℝ) (noisy : Latent5 ℝ)
    (step : ℕ) :
    flat5 (subtract_original_and_normalize original tsp noisy step) =
    (flat5 (residualLatents original tsp noisy step)).map
      (fun x =>
        (1 / (sampleStd (flat5 (residualLatents original tsp noisy step)) + 1 / 100000)) * x +
        -(listMean (flat5 (residualLatents original tsp noisy step)) /
          (sampleStd (flat5 (residualLatents original tsp noisy step)) + 1 / 100000))) := by
  rw [subtract_original_and_normalize, flat5_map5]
  refine List.map_congr_left ?_
  intro x _
  ring

theorem sub_norm_mean (original : Latent5 ℝ) (tsp : List ℝ) (noisy : Latent5 ℝ) (step : ℕ)
    (h : flat5 (residualLatents original tsp noisy step) ≠ []) :
    listMean (flat5 (subtract_original_and_normalize original tsp noisy step)) = 0 := by
  rw [sub_norm_flat_eq, listMean_map_affine _ _ _ h]
  ring

theorem sub_norm_std (original : Latent5 ℝ) (tsp : List ℝ) (noisy : Latent5 ℝ) (step : ℕ) :
    sampleStd (flat5 (subtract_original_and_normalize original tsp noisy step)) =
    sampleStd (flat5 (residualLatents original tsp noisy step)) /
      (sampleStd (flat5 (residualLatents original tsp noisy step)) + 1 / 100000) := by
  have hpos : 0 < sampleStd (flat5 (residualLatents original tsp noisy step)) + 1 / 100000 :=
    add_pos_of_nonneg_of_pos (sampleStd_nonneg _) (by norm_num)
  rw [sub_norm_flat_eq, sampleStd_map_affine, abs_of_pos (one_div_pos.2 hpos), one_div,
    inv_mul_eq_div]

/-- C1 (amended): the normalizer output has sample mean exactly 0 (hence
within `1e-4` of 0), and its sample standard deviation is
`sigma / (sigma + 1e-5)` where `sigma` is the residual's sample standard
deviation, which is within `1e-4` of 1 whenever `sigma` is at least `0.1`. -/
theorem subtract_original_and_normalize_mean_std (original : Latent5 ℝ) (tsp : List ℝ)
    (noisy : Latent5 ℝ) (step : ℕ)
    (hne : flat5 (residualLatents original tsp noisy step) ≠ [])
    (hstd : 1 / 10 ≤ sampleStd (flat5 (residualLatents original tsp noisy step))) :
    listMean (flat5 (subtract_original_and_normalize original tsp noisy step)) = 0 ∧
    |sampleStd (flat5 (subtract_original_and_normalize original tsp noisy step)) - 1| ≤
      1 / 10000 := by
  refine ⟨sub_norm_mean original tsp noisy step hne, ?_⟩
  rw [sub_norm_std]
  have hs0 : 0 ≤ sampleStd (flat5 (residualLatents original tsp noisy step)) :=
    sampleStd_nonneg _
  have hpos : 0 < sampleStd (flat5 (residualLatents original tsp noisy step)) + 1 / 100000 := by
    linarith
  have hle1 : sampleStd (flat5 (residualLatents original tsp noisy step)) /
      (sampleStd (flat5 (residualLatents original tsp noisy step)) + 1 / 100000) ≤ 1 := by
    rw [div_le_one hpos]
    linarith
  have heq : 1 - sampleStd (flat5 (residualLatents original tsp noisy step)) /
      (sampleStd (flat5 (residualLatents original tsp noisy step)) + 1 / 100000) =
      (1 / 100000) / (sampleStd (flat5 (residualLatents original tsp noisy step)) + 1 / 100000) := by
    field_simp
  rw [abs_sub_comm, abs_of_nonneg (by linarith), heq, div_le_iff₀ hpos]
  linarith

/-- C1 witness: the amended normalizer theorem at the concrete residual
`[-1, 0, 1]` (reference latent zero, noise fraction 0), whose sample standard
deviation is 1. -/
theorem subtract_original_and_normalize_mean_std_witness :
    (flat5 (residualLatents [[[[[(0 : ℝ), 0, 0]]]]] [0] [[[[[-1, 0, 1]]]]] 0) ≠ [] ∧
      1 / 10 ≤ sampleStd (flat5 (residualLatents [[[[[(0 : ℝ), 0, 0]]]]] [0]
        [[[[[-1, 0, 1]]]]] 0))) ∧
    (listMean (flat5 (subtract_original_and_normalize [[[[[(0 : ℝ), 0, 0]]]]] [0]
        [[[[[-1, 0, 1]]]]] 0)) = 0 ∧
      |sampleStd (flat5 (subtract_original_and_normalize [[[[[(0 : ℝ), 0, 0]]]]] [0]
        [[[[[-1, 0, 1]]]]] 0)) - 1| ≤ 1 / 10000) := by
  have hres : flat5 (residualLatents [[[[[(0 : ℝ), 0, 0]]]]] [0] [[[[[-1, 0, 1]]]]] 0) =
      [-1, 0, 1] := by
    norm_num [residualLatents, zip5, flat5]
  have hvar : sampleVar [(-1 : ℝ), 0, 1] = 1 := by
    norm_num [sampleVar, listMean]
  have hstd1 : sampleStd (flat5 (residualLatents [[[[[(0 : ℝ), 0, 0]]]]] [0]
      [[[[[-1, 0, 1]]]]] 0)) = 1 := by
    rw [hres, sampleStd, hvar, Real.sqrt_one]
  have h1 : flat5 (residualLatents [[[[[(0 : ℝ), 0, 0]]]]] [0] [[[[[-1, 0, 1]]]]] 0) ≠ [] := by
    rw [hres]
    simp
  have h2 : 1 / 10 ≤ sampleStd (flat5 (residualLatents [[[[[(0 : ℝ), 0, 0]]]]] [0]
      [[[[[-1, 0, 1]]]]] 0)) := by
    rw [hstd1]
    norm_num
  exact ⟨⟨h1, h2⟩, subtract_original_and_normalize_mean_std _ _ _ _ h1 h2⟩

/-- C1 counterexample: for the valid, not all-equal latent snapshot
`[-1/100, 0, 1/100]` (reference latent zero, noise fraction 0) the residual's
sample standard deviation is `1/100`, and the output's sample standard
deviation is `1000/1001`, which is not within `1e-4` of 1. -/
theorem subtract_original_and_normalize_counterexample :
    ¬ (|sampleStd (flat5 (subtract_original_and_normalize [[[[[(0 : ℝ), 0, 0]]]]] [0]
        [[[[[-(1 / 100), 0, 1 / 100]]]]] 0)) - 1| ≤ 1 / 10000) := by
  have hres : flat5 (residualLatents [[[[[(0 : ℝ), 0, 0]]]]] [0]
      [[[[[-(1 / 100), 0, 1 / 100]]]]] 0) = [-(1 / 100), 0, 1 / 100] := by
    norm_num [residualLatents, zip5, flat5]
  have hvar : sampleVar [(-(1 / 100) : ℝ), 0, 1 / 100] = (1 / 100) ^ 2 := by
    norm_num [sampleVar, listMean]
  have hstd : sampleStd (flat5 (residualLatents [[[[[(0 : ℝ), 0, 0]]]]] [0]
      [[[[[-(1 / 100), 0, 1 / 100]]]]] 0)) = 1 / 100 := by
    rw [hres, sampleStd, hvar, Real.sqrt_sq (by norm_num)]
  rw [sub_norm_std, hstd]
  intro hcon
  rw [abs_le] at hcon
  have h1 := hcon.1
  norm_num at h1

/-! ### Spatial upscaler
(`torch.nn.functional.interpolate(..., scale_factor=8, mode="bicubic",
align_corners=False)`, source lines 52-57) -/

/-- The Keys cubic convolution constant `A = -0.75` used by the torch bicubic
kernel. -/
def cubicA (α : Type) [LinearOrderedField α] : α := -(3 / 4)

/-- Torch `cubic_convolution1` (weight for offsets in `[0, 1]`). -/
def cubicConv1 {α : Type} [LinearOrderedField α] (t : α) : α :=
  ((cubicA α + 2) * t - (cubicA α + 3)) * t * t + 1

/-- Torch `cubic_convolution2` (weight for offsets in `(1, 2)`). -/
def cubicConv2 {α : Type} [LinearOrderedField α] (t : α) : α :=
  ((cubicA α * t - 5 * cubicA α) * t + 8 * cubicA α) * t - 4 * cubicA α

/-- The four bicubic interpolation weights for fractional offset `t`. -/
def cubicWeights {α : Type} [LinearOrderedField α] (t : α) : List α :=
  [cubicConv2 (t + 1), cubicConv1 t, cubicConv1 (1 - t), cubicConv2 (2 - t)]

/-- Source coordinate of destination index `dst` under integer upscale factor
`s` with `align_corners=False`: `(dst + 0.5) / s - 0.5`. -/
def srcCoord {α : Type} [LinearOrderedField α] (s : ℕ) (dst : ℕ) : α :=
  ((dst : α) + 1 / 2) / (s : α) - 1 / 2

/-- Index clamped to `[0, n-1]` (torch border replication
`upsample_get_value_bounded`). -/
def clampIdx (n : ℕ) (i : ℤ) : ℕ :=
  (max 0 (min i ((n : ℤ) - 1))).toNat

/-- Bicubic upscale of one channel plane by integer factor `s`
(`aten::upsample_bicubic2d` with `align_corners=False`). -/
def bicubicChannel {α : Type} [LinearOrderedField α] [FloorRing α] (s : ℕ)
    (img : List (List α)) : List (List α) :=
  (List.range (img.length * s)).map (fun oy =>
    (List.range ((img.getD 0 []).length * s)).map (fun ox =>
      dotL (cubicWeights (srcCoord s oy - (⌊(srcCoord s oy : α)⌋ : α)))
        ((List.range 4).map (fun ky : ℕ =>
          dotL (cubicWeights (srcCoord s ox - (⌊(srcCoord s ox : α)⌋ : α)))
            ((List.range 4).map (fun kx : ℕ =>
              (img.getD (clampIdx img.length (⌊(srcCoord s oy : α)⌋ - 1 + (ky : ℤ))) []).getD
                (clampIdx (img.getD 0 []).length (⌊(srcCoord s ox : α)⌋ - 1 + (kx : ℤ))) 0))))))

/-- Bicubic upscale of a `{frame, channel, height, width}` tensor
(`F.interpolate` on the decoded preview, source lines 52-57). -/
def interpolate_bicubic {α : Type} [LinearOrderedField α] [FloorRing α] (s : ℕ)
    (frames : Tensor4 α) : Tensor4 α :=
  frames.map (fun frame => frame.map (bicubicChannel s))

/-! ### The orchestrator (`LatentPreviewer.preview`, source lines 42-62)

The model covers latent2rgb mode (`args.preview_vae is None`): scale factor 8
and frame rate `int(args.fps / 4)` fixed at construction (source lines 37-40),
with the latent supplied in the five-dimensional
`{batch, channel, frame, height, width}` layout (for the wan family the source
first inserts the leading batch axis; after that insertion the flow is the
same). -/

/-- One `preview(noisy_latents, current_step)` call in latent2rgb mode:
normalize, decode, upscale by 8 and hand the frames to the sink with the
upscaled width and height (`_, _, h_up, w_up = upscaled.shape`).  `timesteps`
is the raw schedule, divided by 1000 at construction.  A decode error
propagates and nothing is written. -/
noncomputable def preview (model_type : String) (original : Latent5 ℝ) (timesteps : List ℝ)
    (fps : ℕ) (noisy : Latent5 ℝ) (step : ℕ) : Except String WriteOutput :=
  (decode_latent2rgb model_type
      (subtract_original_and_normalize original (timesteps_percent timesteps) noisy step)).map
    (fun decoded =>
      write_video (fps / 4) (interpolate_bicubic 8 decoded)
        ((((interpolate_bicubic 8 decoded).getD 0 []).getD 0 []).getD 0 []).length
        (((interpolate_bicubic 8 decoded).getD 0 []).getD 0 []).length
        "./latent_preview.mp4")

/-- C4: for every model family string without a coefficient-table entry, the
linear-projection decode path raises the unsupported-model configuration error
and `preview` returns it unchanged: no write output is produced. -/
theorem preview_unsupported_family (model_type : String)
    (h1 : model_type ≠ "hunyuan") (h2 : model_type ≠ "wan")
    (original : Latent5 ℝ) (timesteps : List ℝ) (fps : ℕ) (noisy : Latent5 ℝ) (step : ℕ) :
    preview model_type original timesteps fps noisy step =
      Except.error ("Unsupported model type: " ++ model_type) := by
  have hl : modelParams.lookup model_type = none := by
    have hb1 : (model_type == "hunyuan") = false := beq_eq_false_iff_ne.2 h1
    have hb2 : (model_type == "wan") = false := beq_eq_false_iff_ne.2 h2
    simp [modelParams, List.lookup, hb1, hb2]
  have hdec : decode_latent2rgb model_type
      (subtract_original_and_normalize original (timesteps_percent timesteps) noisy step) =
      Except.error ("Unsupported model type: " ++ model_type) := by
    unfold decode_latent2rgb
    rw [hl]
  rw [preview, hdec]
  rfl

/-- C4 witness: the unsupported family theorem applied to the concrete family
string `"flux"` with empty tensors. -/
theorem preview_unsupported_family_witness :
    ("flux" ≠ "hunyuan") ∧ ("flux" ≠ "wan") ∧
    preview "flux" [] [] 0 [] 0 = Except.error ("Unsupported model type: " ++ "flux") :=
  ⟨by decide, by decide, preview_unsupported_family "flux" (by decide) (by decide) [] [] 0 [] 0⟩

/-! ### Constant-tensor lemmas for the round-trip scenario -/

theorem zip5_const5 {α β γ : Type} (f : α → β → γ) (b c t h w : ℕ) (x : α) (y : β) :
    zip5 f (const5 b c t h w x) (const5 b c t h w y) = const5 b c t h w (f x y) := by
  simp [zip5, const5, List.zipWith_replicate, min_self]

theorem map5_const5 {α β : Type} (f : α → β) (b c t h w : ℕ) (x : α) :
    map5 f (const5 b c t h w x) = const5 b c t h w (f x) := by
  simp [map5, const5, List.map_replicate]

theorem flat5_const5 {α : Type} (b c t h w : ℕ) (x : α) :
    flat5 (const5 b c t h w x) = List.replicate (b * c * t * h * w) x := by
  simp [flat5, const5, flatten_replicate_replicate]

theorem listMean_replicate {α : Type} [LinearOrderedField α] {n : ℕ} (h : n ≠ 0) (v : α) :
    listMean (List.replicate n v) = v := by
  have hn : (n : α) ≠ 0 := Nat.cast_ne_zero.2 h
  simp only [listMean, List.sum_replicate, List.length_replicate, nsmul_eq_mul]
  exact mul_div_cancel_left₀ v hn

theorem sampleVar_replicate {α : Type} [LinearOrderedField α] (n : ℕ) (v : α) :
    sampleVar (List.replicate n v) = 0 := by
  cases n with
  | zero => simp [sampleVar]
  | succ k =>
    have hmean : listMean (List.replicate (k + 1) v) = v :=
      listMean_replicate (Nat.succ_ne_zero k) v
    simp [sampleVar, hmean, List.map_replicate, List.sum_replicate]

theorem sampleStd_replicate (n : ℕ) (v : ℝ) : sampleStd (List.replicate n v) = 0 := by
  rw [sampleStd, sampleVar_replicate, Real.sqrt_zero]

/-- The normalizer on a spatially constant snapshot with a zero reference
latent and noise fraction 0 at step 0 outputs the all-zero tensor
(`(v - v) / (0 + 1e-5) = 0`). -/
theorem sub_norm_const (v : ℝ) :
    subtract_original_and_normalize (const5 1 16 2 8 8 0) (timesteps_percent [0])
      (const5 1 16 2 8 8 v) 0 = const5 1 16 2 8 8 0 := by
  have hres : residualLatents (const5 1 16 2 8 8 0) (timesteps_percent [0])
      (const5 1 16 2 8 8 v) 0 = const5 1 16 2 8 8 v := by
    rw [residualLatents, zip5_const5]
    congr 1
    ring
  rw [subtract_original_and_normalize, hres, flat5_const5]
  norm_num
  rw [listMean_replicate (by norm_num : (2048 : ℕ) ≠ 0), sampleStd_replicate, map5_const5]
  congr 1
  norm_num

theorem dotL_zero_left {α : Type} [LinearOrderedField α] (n : ℕ) (ys : List α) :
    dotL (List.replicate n (0 : α)) ys = 0 := by
  induction ys generalizing n with
  | nil => simp [dotL]
  | cons y tl ih =>
    cases n with
    | zero => simp [dotL]
    | succ k =>
      have htl := ih k
      simp only [dotL, List.replicate_succ, List.zipWith_cons_cons, List.sum_cons, zero_mul,
        zero_add]
      simpa [dotL] using htl

theorem map_range_getD {γ : Type} (l : List γ) (d : γ) :
    (List.range l.length).map (fun j => l.getD j d) = l := by
  apply List.ext_getElem
  · simp
  · intro i h1 h2
    simp only [List.getElem_map, List.getElem_range]
    exact List.getD_eq_getElem l d h2

/-- The per-pixel affine map on an all-zero channel vector returns the bias
vector. -/
theorem linearRGB_zero {α : Type} [LinearOrderedField α] (factors : List (List ℚ))
    (bias : List ℚ) (n : ℕ) :
    linearRGB factors bias (List.replicate n (0 : α)) = bias.map qCast := by
  rw [linearRGB]
  have h0 : ∀ j : ℕ,
      dotL (List.replicate n (0 : α)) ((rgbColumn factors j).map qCast) = 0 :=
    fun j => dotL_zero_left n _
  simp only [h0, zero_add]
  conv_rhs => rw [← map_range_getD bias 0]
  rw [List.map_map]
  rfl

/-- Unfolding equation of `decode_latent2rgb` for a family with a table entry. -/
theorem decode_latent2rgb_eq_of_lookup {α : Type} [LinearOrderedField α] (mt : String)
    (factors : List (List ℚ)) (bias : List ℚ) (l : Latent5 α)
    (h : modelParams.lookup mt = some (factors, bias)) :
    decode_latent2rgb mt l = Except.ok (permuteLast bias.length
      (if listMin (flat4 (stackedImages factors bias (l.getD 0 []))) <
          listMax (flat4 (stackedImages factors bias (l.getD 0 []))) then
        map4 (rescale01 (listMin (flat4 (stackedImages factors bias (l.getD 0 []))))
          (listMax (flat4 (stackedImages factors bias (l.getD 0 [])))))
          (stackedImages factors bias (l.getD 0 []))
      else stackedImages factors bias (l.getD 0 []))) := by
  unfold decode_latent2rgb
  rw [h]

/-- The linear-projection decode of the all-zero `(1, 16, 2, 8, 8)` latent
under the hunyuan table: every pixel maps to the bias, the global min-max
rescale sends the three bias components to `1`, `569/1020` and `0`, and the
result is two frames with three constant channel planes each. -/
theorem decode_const_zero_hunyuan :
    decode_latent2rgb "hunyuan" (const5 1 16 2 8 8 (0 : ℝ)) =
      Except.ok (List.replicate 2
        [List.replicate 8 (List.replicate 8 (1 : ℝ)),
         List.replicate 8 (List.replicate 8 ((569 : ℝ) / 1020)),
         List.replicate 8 (List.replicate 8 (0 : ℝ))]) := by
  have hb0 : (const5 1 16 2 8 8 (0 : ℝ)).getD 0 [] =
      List.replicate 16 (List.replicate 2 (List.replicate 8 (List.replicate 8 (0 : ℝ)))) := by
    simp [const5]
  have hT : numFrames
      (List.replicate 16 (List.replicate 2 (List.replicate 8 (List.replicate 8 (0 : ℝ))))) = 2 := by
    rw [numFrames, getD_replicate (by norm_num)]
    exact List.length_replicate _ _
  have hH : frameH
      (List.replicate 16 (List.replicate 2 (List.replicate 8 (List.replicate 8 (0 : ℝ))))) = 8 := by
    rw [frameH, getD_replicate (by norm_num), getD_replicate (by norm_num)]
    exact List.length_replicate _ _
  have hW : frameW
      (List.replicate 16 (List.replicate 2 (List.replicate 8 (List.replicate 8 (0 : ℝ))))) = 8 := by
    rw [frameW, getD_replicate (by norm_num), getD_replicate (by norm_num),
      getD_replicate (by norm_num)]
    exact List.length_replicate _ _
  have hbiasR : hunyuanBias.map qCast = [(259 : ℝ) / 10000, -(192 / 10000), -(761 / 10000)] := by
    simp only [hunyuanBias, List.map_cons, List.map_nil, qCast]
    norm_num
  have hch : ∀ t y x : ℕ, t < 2 → y < 8 → x < 8 →
      latentChans (List.replicate 16 (List.replicate 2 (List.replicate 8
        (List.replicate 8 (0 : ℝ))))) t y x = List.replicate 16 (0 : ℝ) := by
    intro t y x ht hy hx
    rw [latentChans, List.map_replicate, getD_replicate ht, getD_replicate hy, getD_replicate hx]
  have hfr : ∀ t : ℕ, t < 2 →
      frameRGB hunyuanFactors hunyuanBias (List.replicate 16 (List.replicate 2
        (List.replicate 8 (List.replicate 8 (0 : ℝ))))) t =
      List.replicate 8 (List.replicate 8 ([(259 : ℝ) / 10000, -(192 / 10000),
        -(761 / 10000)] : List ℝ)) := by
    intro t ht
    rw [frameRGB, hH, hW]
    apply map_range_const
    intro y hy
    apply map_range_const
    intro x hx
    rw [hch t y x ht hy hx, linearRGB_zero, hbiasR]
  have hstack : stackedImages hunyuanFactors hunyuanBias (List.replicate 16 (List.replicate 2
      (List.replicate 8 (List.replicate 8 (0 : ℝ))))) =
      List.replicate 2 (List.replicate 8 (List.replicate 8 ([(259 : ℝ) / 10000, -(192 / 10000),
        -(761 / 10000)] : List ℝ))) := by
    rw [stackedImages, hT]
    apply map_range_const
    intro t ht
    exact hfr t ht
  have hflat : flat4 (List.replicate 2 (List.replicate 8 (List.replicate 8
      ([(259 : ℝ) / 10000, -(192 / 10000), -(761 / 10000)] : List ℝ)))) =
      (List.replicate 128 ([(259 : ℝ) / 10000, -(192 / 10000),
        -(761 / 10000)] : List ℝ)).flatten := by
    simp [flat4, flatten_replicate_replicate]
  have hmem_iff : ∀ w : ℝ, w ∈ (List.replicate 128 ([(259 : ℝ) / 10000, -(192 / 10000),
      -(761 / 10000)] : List ℝ)).flatten ↔
      w ∈ ([(259 : ℝ) / 10000, -(192 / 10000), -(761 / 10000)] : List ℝ) := by
    intro w
    constructor
    · intro hw
      rcases List.mem_flatten.1 hw with ⟨s, hs, hws⟩
      rw [List.eq_of_mem_replicate hs] at hws
      exact hws
    · intro hw
      exact List.mem_flatten.2 ⟨_, List.mem_replicate.2 ⟨by norm_num, rfl⟩, hw⟩
  have hne : (List.replicate 128 ([(259 : ℝ) / 10000, -(192 / 10000),
      -(761 / 10000)] : List ℝ)).flatten ≠ [] :=
    List.ne_nil_of_mem ((hmem_iff ((259 : ℝ) / 10000)).2 (by simp))
  have hmin : listMin ((List.replicate 128 ([(259 : ℝ) / 10000, -(192 / 10000),
      -(761 / 10000)] : List ℝ)).flatten) = -(761 / 10000) := by
    have h1 : listMin ((List.replicate 128 ([(259 : ℝ) / 10000, -(192 / 10000),
        -(761 / 10000)] : List ℝ)).flatten) ≤ -(761 / 10000) :=
      listMin_le ((hmem_iff _).2 (by simp))
    have h2 := listMin_mem hne
    rw [hmem_iff] at h2
    rcases List.mem_cons.1 h2 with he | h2
    · rw [he] at h1
      norm_num at h1
    rcases List.mem_cons.1 h2 with he | h2
    · rw [he] at h1
      norm_num at h1
    rcases List.mem_cons.1 h2 with he | h2
    · exact he
    · cases h2
  have hmax : listMax ((List.replicate 128 ([(259 : ℝ) / 10000, -(192 / 10000),
      -(761 / 10000)] : List ℝ)).flatten) = (259 : ℝ) / 10000 := by
    have h1 : (259 : ℝ) / 10000 ≤ listMax ((List.replicate 128 ([(259 : ℝ) / 10000,
        -(192 / 10000), -(761 / 10000)] : List ℝ)).flatten) :=
      le_listMax ((hmem_iff _).2 (by simp))
    have h2 := listMax_mem hne
    rw [hmem_iff] at h2
    rcases List.mem_cons.1 h2 with he | h2
    · exact he
    rcases List.mem_cons.1 h2 with he | h2
    · rw [he] at h1
      norm_num at h1
    rcases List.mem_cons.1 h2 with he | h2
    · rw [he] at h1
      norm_num at h1
    · cases h2
  rw [decode_latent2rgb_eq_of_lookup "hunyuan" hunyuanFactors hunyuanBias _ rfl, hb0, hstack,
    hflat, hmin, hmax, if_pos (by norm_num : -(761 / 10000) < (259 : ℝ) / 10000)]
  have hmap4 : map4 (rescale01 (-(761 / 10000)) ((259 : ℝ) / 10000))
      (List.replicate 2 (List.replicate 8 (List.replicate 8 ([(259 : ℝ) / 10000,
        -(192 / 10000), -(761 / 10000)] : List ℝ)))) =
      List.replicate 2 (List.replicate 8 (List.replicate 8
        ([(1 : ℝ), 569 / 1020, 0] : List ℝ))) := by
    simp only [map4, List.map_replicate, List.map_cons, List.map_nil]
    norm_num [rescale01]
  rw [hmap4]
  have hlen3 : hunyuanBias.length = 3 := rfl
  rw [hlen3, permuteLast]
  simp only [List.map_replicate]
  rw [show List.range 3 = [0, 1, 2] from rfl]
  simp [List.getD_cons_zero, List.getD_cons_succ]

theorem clampIdx_lt (n : ℕ) (h : 0 < n) (i : ℤ) : clampIdx n i < n := by
  have h1 : min i ((n : ℤ) - 1) ≤ (n : ℤ) - 1 := min_le_right _ _
  have h2 : (0 : ℤ) ≤ max 0 (min i ((n : ℤ) - 1)) := le_max_left _ _
  have h3 : max 0 (min i ((n : ℤ) - 1)) ≤ (n : ℤ) - 1 := by
    apply max_le _ h1
    omega
  rw [clampIdx]
  omega

/-- The four bicubic weights sum to 1, so interpolating a constant plane gives
back the constant. -/
theorem dotL_cubicWeights_const {α : Type} [LinearOrderedField α] (t v : α) :
    dotL (cubicWeights t) (List.replicate 4 v) = v := by
  show dotL (cubicWeights t) [v, v, v, v] = v
  simp only [cubicWeights, dotL, List.zipWith_cons_cons, List.zipWith_nil_left,
    List.sum_cons, List.sum_nil, cubicConv1, cubicConv2, cubicA]
  ring

theorem bicubicChannel_const {α : Type} [LinearOrderedField α] [FloorRing α] (s H W : ℕ)
    (hH : 0 < H) (hW : 0 < W) (v : α) :
    bicubicChannel s (List.replicate H (List.replicate W v)) =
      List.replicate (H * s) (List.replicate (W * s) v) := by
  rw [bicubicChannel, List.length_replicate, getD_replicate hH, List.length_replicate]
  apply map_range_const
  intro oy _
  apply map_range_const
  intro ox _
  have hrow : ∀ j : ℤ, (List.replicate H (List.replicate W v)).getD (clampIdx H j) [] =
      List.replicate W v := fun j => getD_replicate (clampIdx_lt H hH j)
  have hcell : ∀ j : ℤ, (List.replicate W v).getD (clampIdx W j) 0 = v :=
    fun j => getD_replicate (clampIdx_lt W hW j)
  simp only [hrow, hcell]
  have hxconst : (List.range 4).map (fun kx : ℕ => v) = List.replicate 4 v :=
    map_range_const 4 v _ (fun i _ => rfl)
  rw [hxconst, dotL_cubicWeights_const]
  have hyconst : (List.range 4).map (fun ky : ℕ => v) = List.replicate 4 v :=
    map_range_const 4 v _ (fun i _ => rfl)
  rw [hyconst, dotL_cubicWeights_const]

/-- The 8x bicubic upscale of the decoded constant frames: each 8x8 constant
channel plane becomes a 64x64 constant plane. -/
theorem interpolate_const_frames :
    interpolate_bicubic 8 (List.replicate 2
      [List.replicate 8 (List.replicate 8 (1 : ℝ)),
       List.replicate 8 (List.replicate 8 ((569 : ℝ) / 1020)),
       List.replicate 8 (List.replicate 8 (0 : ℝ))]) =
    List.replicate 2
      [List.replicate 64 (List.replicate 64 (1 : ℝ)),
       List.replicate 64 (List.replicate 64 ((569 : ℝ) / 1020)),
       List.replicate 64 (List.replicate 64 (0 : ℝ))] := by
  simp only [interpolate_bicubic, List.map_replicate, List.map_cons, List.map_nil]
  rw [bicubicChannel_const 8 8 8 (by norm_num) (by norm_num),
    bicubicChannel_const 8 8 8 (by norm_num) (by norm_num),
    bicubicChannel_const 8 8 8 (by norm_num) (by norm_num)]

/-- C6 (amended): for the constant-value latent snapshot of shape
`(1, 16, 2, 8, 8)` with a zero reference latent and noise fraction 0 at step
0, the hunyuan linear-projection preview decodes to two frames, the upscaled
tensor has shape `2 x 3 x 64 x 64` and every channel plane of every frame is
constant (the three channels of a frame carry three different constants), and
`preview` writes exactly two encoded video frames to `./latent_preview.mp4` at
a quarter of the configured frame rate with width and height 64. -/
theorem preview_const_hunyuan (v : ℝ) (fps : ℕ) :
    ∃ d, decode_latent2rgb "hunyuan"
        (subtract_original_and_normalize (const5 1 16 2 8 8 0) (timesteps_percent [0])
          (const5 1 16 2 8 8 v) 0) = Except.ok d ∧
      (interpolate_bicubic 8 d).length = 2 ∧
      (∀ frame ∈ interpolate_bicubic 8 d, frame.length = 3 ∧
        ∀ chan ∈ frame, ∃ c : ℝ, chan = List.replicate 64 (List.replicate 64 c)) ∧
      preview "hunyuan" (const5 1 16 2 8 8 0) [0] fps (const5 1 16 2 8 8 v) 0 =
        Except.ok (WriteOutput.video "./latent_preview.mp4" (fps / 4) 64 64
          ((interpolate_bicubic 8 d).map processFrame)) ∧
      ((interpolate_bicubic 8 d).map processFrame).length = 2 := by
  have hdec : decode_latent2rgb "hunyuan"
      (subtract_original_and_normalize (const5 1 16 2 8 8 0) (timesteps_percent [0])
        (const5 1 16 2 8 8 v) 0) =
      Except.ok (List.replicate 2
        [List.replicate 8 (List.replicate 8 (1 : ℝ)),
         List.replicate 8 (List.replicate 8 ((569 : ℝ) / 1020)),
         List.replicate 8 (List.replicate 8 (0 : ℝ))]) := by
    rw [sub_norm_const v]
    exact decode_const_zero_hunyuan
  refine ⟨_, hdec, ?_, ?_, ?_, ?_⟩
  · rw [interpolate_const_frames]
    exact List.length_replicate _ _
  · rw [interpolate_const_frames]
    intro frame hf
    rw [List.eq_of_mem_replicate hf]
    refine ⟨rfl, ?_⟩
    intro chan hc
    rcases List.mem_cons.1 hc with rfl | hc
    · exact ⟨1, rfl⟩
    rcases List.mem_cons.1 hc with rfl | hc
    · exact ⟨(569 : ℝ) / 1020, rfl⟩
    rcases List.mem_cons.1 hc with rfl | hc
    · exact ⟨0, rfl⟩
    · cases hc
  · rw [preview, hdec]
    have hpath : pyReplace "./latent_preview.mp4" ".png" ".mp4" = "./latent_preview.mp4" := by
      decide
    simp only [Except.map, interpolate_const_frames]
    rw [write_video, if_neg (by simp)]
    rw [hpath]
    rfl
  · rw [interpolate_const_frames, List.length_map]
    exact List.length_replicate _ _

/-- C6 counterexample: in the round-trip scenario the values are not all equal
within a frame: at frame 0 the upscaled red channel holds 1 while the blue
channel holds 0. -/
theorem preview_const_hunyuan_counterexample :
    ∃ d, decode_latent2rgb "hunyuan"
        (subtract_original_and_normalize (const5 1 16 2 8 8 0) (timesteps_percent [0])
          (const5 1 16 2 8 8 (5 : ℝ)) 0) = Except.ok d ∧
      ((((interpolate_bicubic 8 d).getD 0 []).getD 0 []).getD 0 []).getD 0 0 = (1 : ℝ) ∧
      ((((interpolate_bicubic 8 d).getD 0 []).getD 2 []).getD 0 []).getD 0 0 = (0 : ℝ) ∧
      ((((interpolate_bicubic 8 d).getD 0 []).getD 0 []).getD 0 []).getD 0 0 ≠
        ((((interpolate_bicubic 8 d).getD 0 []).getD 2 []).getD 0 []).getD 0 0 := by
  have hdec : decode_latent2rgb "hunyuan"
      (subtract_original_and_normalize (const5 1 16 2 8 8 0) (timesteps_percent [0])
        (const5 1 16 2 8 8 (5 : ℝ)) 0) =
      Except.ok (List.replicate 2
        [List.replicate 8 (List.replicate 8 (1 : ℝ)),
         List.replicate 8 (List.replicate 8 ((569 : ℝ) / 1020)),
         List.replicate 8 (List.replicate 8 (0 : ℝ))]) := by
    rw [sub_norm_const 5]
    exact decode_const_zero_hunyuan
  refine ⟨_, hdec, ?_, ?_, ?_⟩
  · rw [interpolate_const_frames, getD_replicate (by norm_num), List.getD_cons_zero,
      getD_replicate (by norm_num), getD_replicate (by norm_num)]
  · rw [interpolate_const_frames, getD_replicate (by norm_num), List.getD_cons_succ,
      List.getD_cons_succ, List.getD_cons_zero, getD_replicate (by norm_num),
      getD_replicate (by norm_num)]
  · rw [interpolate_const_frames, getD_replicate (by norm_num), List.getD_cons_succ,
      List.getD_cons_succ, List.getD_cons_zero, List.getD_cons_zero,
      getD_replicate (by norm_num), getD_replicate (by norm_num),
      getD_replicate (by norm_num), getD_replicate (by norm_num)]
    norm_num
